import Mathlib

/-!
# FinTrader strategy core — shallow embedding and verification

A shallow embedding of the FinTrader strategy decision engines
(`src/Strats/RSI_Strat.py`, `src/Strats/Bol_Strat.py`,
`src/Strats/Rand_Strat.py`) and the position-sizing module
(`src/Strats/position_sizer.py`), with theorems settling the frozen
claims about them.

Python floats are modelled as rationals (`ℚ`); the claims under study are
order comparisons and exact arithmetic identities, for which `ℚ` is the
intended real-number semantics. Python `None`-able numeric fields become
`Option ℚ`, and Python truthiness of such a field (`if self.entry_price:`)
is `none`-or-zero falsity, captured by `optTruthy`. Lists stay lists; the
slice `xs[-100:]` becomes `takeLast 100 xs`.
-/

namespace FinTrader

/-- Python truthiness of an optional number: `None` and `0` are falsy,
every other value truthy. -/
def optTruthy (o : Option ℚ) : Bool :=
  match o with
  | none => false
  | some x => x != 0

/-- Order side: `buy` / `sell`, matching `order.isbuy()` dispatch. -/
inductive Side where
  | buy
  | sell
deriving DecidableEq, Repr

/-- The order-status enum observed by `notify_order`
(`backtrader` statuses the handlers test for). -/
inductive OrdStatus where
  | Submitted
  | Accepted
  | Completed
  | Canceled
  | Margin
  | Rejected
deriving DecidableEq, Repr

/-- An order intent emitted by a strategy: the side and requested size of
a `self.buy(size=...)` / `self.sell(size=...)` call. -/
structure OrderIntent where
  side : Side
  size : ℚ
deriving DecidableEq, Repr

/-- Position-sizing method selector (`position_method` / `method`
parameter: the code compares against the string `'kelly'` and treats
everything else as fixed). -/
inductive Method where
  | fixed
  | kelly
deriving DecidableEq, Repr

/-! ## PositionSizer (`src/Strats/position_sizer.py`, class `PositionSizer`) -/

/-- The source's `PositionSizer.kelly_criterion(win_rate, avg_win, avg_loss,
max_leverage, fraction)`: guard clauses returning `0.0` for malformed
statistics or a zero win rate, the `win_rate == 1` max-leverage case,
otherwise the Kelly formula `W - (1-W)/|avg_win/avg_loss|`; the result is
scaled by `fraction` and clamped by `max(0.0, min(kelly, max_leverage))`. -/
def kelly_criterion (win_rate avg_win avg_loss max_leverage fraction : ℚ) : ℚ :=
  if win_rate < 0 ∨ win_rate > 1 then 0
  else if avg_loss ≥ 0 ∨ avg_win ≤ 0 then 0
  else if win_rate = 0 then 0
  else
    let kelly :=
      if win_rate = 1 then max_leverage
      else win_rate - (1 - win_rate) / |avg_win / avg_loss|
    max 0 (min (kelly * fraction) max_leverage)

/-- The source's `PositionSizer.fixed_fractional(fraction)`: clamp to `[0, 1]`. -/
def fixed_fractional (fraction : ℚ) : ℚ :=
  max 0 (min fraction 1)

/-! ## Trade-outcome history (`notify_trade` in `RSI_Strat`, `Bol_Strat`
and `AdaptivePositionSizer` — the three handlers are verbatim copies) -/

/-- The wins/losses record kept by every variant: `self.wins` and
`self.losses`. -/
structure TradeHist where
  wins : List ℚ
  losses : List ℚ
deriving DecidableEq, Repr

/-- A trade-closed notification's payload: `trade.isclosed`,
`trade.pnlcomm` and `trade.value` (the fields the handler reads). -/
structure TradeEv where
  isclosed : Bool
  pnlcomm : ℚ
  value : ℚ
deriving DecidableEq, Repr

/-- The Python slice `xs[-n:]`: the last `n` elements (all of them when
the list is shorter). -/
def takeLast (n : ℕ) (xs : List ℚ) : List ℚ :=
  (xs.reverse.take n).reverse

/-- The realized fractional return the handler computes:
`trade.pnlcomm / abs(trade.value) if trade.value != 0 else 0`. -/
def evRet (e : TradeEv) : ℚ :=
  if e.value ≠ 0 then e.pnlcomm / |e.value| else 0

/-- The shared `notify_trade` body: ignore open trades; append the
realized return to `wins` when `pnlcomm > 0`, else to `losses`; then
truncate each list to its last 100 entries when it exceeds 100. -/
def notifyTradeHist (h : TradeHist) (e : TradeEv) : TradeHist :=
  if ¬ e.isclosed then h
  else
    let r := evRet e
    let h1 :=
      if e.pnlcomm > 0 then { h with wins := h.wins ++ [r] }
      else { h with losses := h.losses ++ [r] }
    let h2 :=
      if h1.wins.length > 100 then { h1 with wins := takeLast 100 h1.wins }
      else h1
    if h2.losses.length > 100 then { h2 with losses := takeLast 100 h2.losses }
    else h2

/-- Folding a whole sequence of trade notifications, oldest first. -/
def runTradeHist (evs : List TradeEv) : TradeHist :=
  evs.foldl notifyTradeHist ⟨[], []⟩

/-! ## Band mean-reversion variant (`src/Strats/Bol_Strat.py`) -/

/-- Parameters of `Bol_Strat` (the ones its decision logic reads; indicator
periods are informational — the band values arrive precomputed per bar). -/
structure BolParams where
  position_method : Method
  position_size : ℚ
  kelly_fraction : ℚ
  exit_on_middle : Bool
  stop_loss_pct : Option ℚ
  take_profit_pct : Option ℚ
deriving DecidableEq, Repr

/-- Mutable `Bol_Strat` engine state, plus the broker-side position size
the engine reads through `self.position` (broker-owned, folded into the
composed model; `notify_order` itself never writes it). -/
structure BolState where
  order : Option OrderIntent
  entry_price : Option ℚ
  entry_comm : Option ℚ
  hist : TradeHist
  position : ℚ
deriving DecidableEq, Repr

/-- State at strategy start: no pending order, no entry price, empty
history, flat. -/
def bolInit : BolState :=
  ⟨none, none, none, ⟨[], []⟩, 0⟩

/-- Everything `Bol_Strat.next` reads from the outside on one bar: the
close price, the three band values, and the broker queries
`get_cash()` / `getvalue()`. -/
structure BolBar where
  price : ℚ
  top : ℚ
  mid : ℚ
  bot : ℚ
  cash : ℚ
  pvalue : ℚ
deriving DecidableEq, Repr

/-- The source's `Bol_Strat.calculate_position_size`: Kelly sizing once 20 trades of
history exist (falling back to fixed-fraction when Kelly returns 0 or
below the threshold), plain fixed-fraction otherwise. Defaults
`avg_win = 0.02`, `avg_loss = -0.015` when a side of the history is
empty; `max_leverage` is passed as `1.0`. -/
def bolCalcSize (p : BolParams) (st : BolState) (b : BolBar) : ℚ :=
  if p.position_method = Method.kelly then
    let total := st.hist.wins.length + st.hist.losses.length
    if total ≥ 20 then
      let win_rate : ℚ := (st.hist.wins.length : ℚ) / (total : ℚ)
      let avg_win : ℚ :=
        if st.hist.wins ≠ [] then st.hist.wins.sum / (st.hist.wins.length : ℚ)
        else 2 / 100
      let avg_loss : ℚ :=
        if st.hist.losses ≠ [] then st.hist.losses.sum / (st.hist.losses.length : ℚ)
        else -(15 / 1000)
      let kf := kelly_criterion win_rate avg_win avg_loss 1 p.kelly_fraction
      if kf > 0 then b.pvalue * kf / b.price
      else b.cash * p.position_size / b.price
    else b.cash * p.position_size / b.price
  else b.cash * p.position_size / b.price

/-- The four exit-reason assignments of `Bol_Strat.next`, in source
order. -/
inductive ExitReason where
  | bandReversion
  | middleCross
  | stopLoss
  | takeProfit
deriving DecidableEq, Repr

/-- The `should_exit` / `exit_reason` computation of `Bol_Strat.next`,
translated branch for branch. Note the shape of the third branch: the
`elif` tests only that a stop-loss percentage is configured (truthy) and
the entry price is truthy; the actual price comparison sits in a nested
`if`, so when it fails the chain ends without ever reaching the
take-profit branch. -/
def bolExitReason (p : BolParams) (st : BolState) (b : BolBar) :
    Option ExitReason :=
  if b.price > b.top then some .bandReversion
  else if p.exit_on_middle = true ∧ b.price > b.mid then some .middleCross
  else if optTruthy p.stop_loss_pct = true ∧ optTruthy st.entry_price = true then
    match p.stop_loss_pct, st.entry_price with
    | some sl, some ep =>
        if b.price < ep * (1 - sl / 100) then some .stopLoss else none
    | _, _ => none
  else if optTruthy p.take_profit_pct = true ∧ optTruthy st.entry_price = true then
    match p.take_profit_pct, st.entry_price with
    | some tp, some ep =>
        if b.price > ep * (1 + tp / 100) then some .takeProfit else none
    | _, _ => none
  else none

/-- The source's `Bol_Strat.next`: skip everything while an order is pending; when
flat, buy below the lower band; when in position, run the exit chain and
sell the full position when a reason fires. Returns the new state, the
emitted order intent (if any), and the exit reason behind a sell. -/
def bolNext (p : BolParams) (st : BolState) (b : BolBar) :
    BolState × Option OrderIntent × Option ExitReason :=
  if st.order.isSome then (st, none, none)
  else if ¬ st.position ≠ 0 then
    if b.price < b.bot then
      let size := bolCalcSize p st b
      ({ st with order := some ⟨Side.buy, size⟩ }, some ⟨Side.buy, size⟩, none)
    else (st, none, none)
  else
    match bolExitReason p st b with
    | some r =>
        ({ st with order := some ⟨Side.sell, st.position⟩ },
          some ⟨Side.sell, st.position⟩, some r)
    | none => (st, none, none)

/-- The source's `Bol_Strat.notify_order`: ignore Submitted/Accepted; on a completed
buy record the executed price and commission, on a completed sell null
the entry price; on Canceled/Margin/Rejected only log; in every
non-ignored case clear the pending-order flag. The second component
witnesses that the handler submits no order (it contains no
`self.buy` / `self.sell` call). -/
def bolNotifyOrder (st : BolState) (side : Side) (status : OrdStatus)
    (execPrice execComm : ℚ) : BolState × Option OrderIntent :=
  if status = .Submitted ∨ status = .Accepted then (st, none)
  else if status = .Completed then
    match side with
    | .buy =>
        ({ st with entry_price := some execPrice, entry_comm := some execComm,
                   order := none }, none)
    | .sell => ({ st with entry_price := none, order := none }, none)
  else ({ st with order := none }, none)

/-! ## RSI variant (`src/Strats/RSI_Strat.py`) -/

/-- Parameters of `RSI_Strat` read by the decision logic (the RSI period is
informational — the RSI value arrives precomputed per bar). -/
structure RsiParams where
  rsi_oversold : ℚ
  rsi_overbought : ℚ
  position_method : Method
  position_size : ℚ
  kelly_fraction : ℚ
deriving DecidableEq, Repr

/-- Mutable `RSI_Strat` engine state plus the broker-side position size
(broker-owned, folded into the composed model). -/
structure RsiState where
  order : Option OrderIntent
  buy_price : Option ℚ
  buy_comm : Option ℚ
  hist : TradeHist
  position : ℚ
deriving DecidableEq, Repr

/-- State at strategy start. -/
def rsiInit : RsiState :=
  ⟨none, none, none, ⟨[], []⟩, 0⟩

/-- What `RSI_Strat.next` reads from outside on one bar: the RSI value
and the broker queries (close price enters only through sizing). -/
structure RsiBar where
  rsi : ℚ
  price : ℚ
  cash : ℚ
  pvalue : ℚ
deriving DecidableEq, Repr

/-- The source's `RSI_Strat.calculate_position_size` — verbatim the same logic as the
Band variant's. -/
def rsiCalcSize (p : RsiParams) (st : RsiState) (b : RsiBar) : ℚ :=
  if p.position_method = Method.kelly then
    let total := st.hist.wins.length + st.hist.losses.length
    if total ≥ 20 then
      let win_rate : ℚ := (st.hist.wins.length : ℚ) / (total : ℚ)
      let avg_win : ℚ :=
        if st.hist.wins ≠ [] then st.hist.wins.sum / (st.hist.wins.length : ℚ)
        else 2 / 100
      let avg_loss : ℚ :=
        if st.hist.losses ≠ [] then st.hist.losses.sum / (st.hist.losses.length : ℚ)
        else -(15 / 1000)
      let kf := kelly_criterion win_rate avg_win avg_loss 1 p.kelly_fraction
      if kf > 0 then b.pvalue * kf / b.price
      else b.cash * p.position_size / b.price
    else b.cash * p.position_size / b.price
  else b.cash * p.position_size / b.price

/-- The source's `RSI_Strat.next`: skip while an order is pending; buy when flat and
`RSI < oversold`; sell the full position when in position and
`RSI > overbought`. -/
def rsiNext (p : RsiParams) (st : RsiState) (b : RsiBar) :
    RsiState × Option OrderIntent :=
  if st.order.isSome then (st, none)
  else if ¬ st.position ≠ 0 then
    if b.rsi < p.rsi_oversold then
      let size := rsiCalcSize p st b
      ({ st with order := some ⟨Side.buy, size⟩ }, some ⟨Side.buy, size⟩)
    else (st, none)
  else
    if b.rsi > p.rsi_overbought then
      ({ st with order := some ⟨Side.sell, st.position⟩ },
        some ⟨Side.sell, st.position⟩)
    else (st, none)

/-- The source's `RSI_Strat.notify_order`: like the Band variant's handler except that
a completed sell only logs — `self.buy_price` is NOT reset to `None`. -/
def rsiNotifyOrder (st : RsiState) (side : Side) (status : OrdStatus)
    (execPrice execComm : ℚ) : RsiState × Option OrderIntent :=
  if status = .Submitted ∨ status = .Accepted then (st, none)
  else if status = .Completed then
    match side with
    | .buy =>
        ({ st with buy_price := some execPrice, buy_comm := some execComm,
                   order := none }, none)
    | .sell => ({ st with order := none }, none)
  else ({ st with order := none }, none)

/-! ## Random baseline variant (`src/Strats/Rand_Strat.py`)

`Rand_Strat` draws from the MODULE-LEVEL `random` generator:
`random.seed(s)` in `__init__` reseeds the process-global state, and
`random.random()` in `next` draws from it. The generator is modelled as a
process-global pair (last seed set, number of draws since), with the
underlying pseudo-random stream an arbitrary function of seed and draw
index — exactly the deterministic-function-of-seed contract of a seeded
PRNG. -/

/-- Process-global `random`-module state: the seed last installed by
`random.seed` and how many values have been drawn since. -/
structure RngState where
  seed : ℕ
  idx : ℕ
deriving DecidableEq, Repr

/-- The call `random.seed(s)`: reset the global state. -/
def rngSeed (s : ℕ) : RngState :=
  ⟨s, 0⟩

/-- The call `random.random()`: the next value of the stream for the current seed,
advancing the global state. `stream` is the PRNG's output function. -/
def rngDraw (stream : ℕ → ℕ → ℚ) (g : RngState) : ℚ × RngState :=
  (stream g.seed g.idx, ⟨g.seed, g.idx + 1⟩)

/-- Parameters of `Rand_Strat`. -/
structure RandParams where
  trade_probability : ℚ
  position_size : ℚ
  hold_bars : ℕ
  seed : Option ℕ
deriving DecidableEq, Repr

/-- Mutable `Rand_Strat` engine state plus the broker-side position. -/
structure RandState where
  order : Option OrderIntent
  bar_count_in_position : ℕ
  position : ℚ
deriving DecidableEq, Repr

/-- The source's `Rand_Strat.__init__`, acting on the instance AND on the global
generator: when a seed is supplied the process-global `random` state is
reseeded. -/
def randInit (p : RandParams) (g : RngState) : RandState × RngState :=
  (⟨none, 0, 0⟩, match p.seed with | some s => rngSeed s | none => g)

/-- What `Rand_Strat.next` reads from outside on one bar. -/
structure RandBar where
  price : ℚ
  cash : ℚ
deriving DecidableEq, Repr

/-- The source's `Rand_Strat.next`: return at once while an order is pending (before
any draw); otherwise bump the holding counter when in position, draw one
global random value, and trade when it falls below the configured
probability — an unconditional buy when flat, a sell of the full
position when held for at least `hold_bars` bars. -/
def randNext (stream : ℕ → ℕ → ℚ) (p : RandParams) (st : RandState)
    (g : RngState) (b : RandBar) : RandState × RngState × Option OrderIntent :=
  if st.order.isSome then (st, g, none)
  else
    let st1 :=
      if st.position ≠ 0 then
        { st with bar_count_in_position := st.bar_count_in_position + 1 }
      else st
    let d := rngDraw stream g
    if ¬ d.1 < p.trade_probability then (st1, d.2, none)
    else if ¬ st1.position ≠ 0 then
      let size := b.cash * p.position_size / b.price
      ({ st1 with order := some ⟨Side.buy, size⟩ }, d.2, some ⟨Side.buy, size⟩)
    else if st1.bar_count_in_position ≥ p.hold_bars then
      ({ st1 with order := some ⟨Side.sell, st1.position⟩ }, d.2,
        some ⟨Side.sell, st1.position⟩)
    else (st1, d.2, none)

/-- The source's `Rand_Strat.notify_order`: a completed buy resets the holding-bar
counter; Canceled/Margin/Rejected only log; the pending flag is cleared
in every non-ignored case. -/
def randNotifyOrder (st : RandState) (side : Side) (status : OrdStatus) :
    RandState × Option OrderIntent :=
  if status = .Submitted ∨ status = .Accepted then (st, none)
  else if status = .Completed then
    match side with
    | .buy => ({ st with bar_count_in_position := 0, order := none }, none)
    | .sell => ({ st with order := none }, none)
  else ({ st with order := none }, none)

/-! ## AdaptivePositionSizer (`src/Strats/position_sizer.py`) -/

/-- Parameters of `AdaptivePositionSizer`. -/
structure AdaptiveParams where
  method : Method
  kelly_fraction : ℚ
  fixed_size : ℚ
  min_trades : ℕ
  max_position : ℚ
  min_position : ℚ
deriving DecidableEq, Repr

/-- The `position_fraction` computed inside
`AdaptivePositionSizer._getsizing` for a buy request: the Kelly result
(once `min_trades` history exists and the method is `'kelly'`) or the
fixed default, then clamped by
`max(min_position, min(position_fraction, max_position))`. -/
def adaptiveFraction (p : AdaptiveParams) (h : TradeHist) : ℚ :=
  let raw :=
    if p.method = Method.kelly ∧
        h.wins.length + h.losses.length ≥ p.min_trades then
      let total := h.wins.length + h.losses.length
      let win_rate : ℚ :=
        if total > 0 then (h.wins.length : ℚ) / (total : ℚ) else 1 / 2
      let avg_win : ℚ :=
        if h.wins ≠ [] then h.wins.sum / (h.wins.length : ℚ) else 2 / 100
      let avg_loss : ℚ :=
        if h.losses ≠ [] then h.losses.sum / (h.losses.length : ℚ)
        else -(15 / 1000)
      kelly_criterion win_rate avg_win avg_loss p.max_position p.kelly_fraction
    else p.fixed_size
  max p.min_position (min raw p.max_position)

/-- Python `int(q)`: truncation toward zero. -/
def truncToward0 (q : ℚ) : ℤ :=
  if 0 ≤ q then ⌊q⌋ else ⌈q⌉

/-- The source's `AdaptivePositionSizer._getsizing`: a sell request returns the
strategy's current position size unchanged; a buy request converts the
clamped capital fraction into a whole number of units at the close. -/
def adaptiveGetSizing (p : AdaptiveParams) (h : TradeHist)
    (pvalue close stratPos : ℚ) (isbuy : Bool) : ℚ :=
  if ¬ isbuy then stratPos
  else ((truncToward0 (pvalue * adaptiveFraction p h / close) : ℤ) : ℚ)

/-! ## Composed engine + broker traces

The spec's reachable states arise from interleavings of bar evaluations,
order notifications and trade notifications. The broker collaborator
owns the position: a `Completed` notification adjusts it by the executed
size (positive for a buy fill, negative for a sell fill) just before the
engine's `notify_order` observes the order. An event is well-formed
(`...EventOk`) when a notification refers to the pending order and, if
`Completed`, the executed size respects the broker contract: buy fills
are positive, a sell fill flattens the full submitted position. -/

/-- One external event delivered to a Band-variant engine. -/
inductive BolEvent where
  | bar (b : BolBar)
  | ordNotify (status : OrdStatus) (execPrice execComm execSize : ℚ)
  | trdNotify (e : TradeEv)
deriving DecidableEq, Repr

/-- The composed Band-variant transition: bars run `next`, order
notifications run the broker position update then `notify_order`, trade
notifications run `notify_trade`. -/
def bolStep (p : BolParams) (st : BolState) (ev : BolEvent) : BolState :=
  match ev with
  | .bar b => (bolNext p st b).1
  | .ordNotify status price comm size =>
      match st.order with
      | some o =>
          let stPos :=
            if status = .Completed then
              { st with position := st.position + size }
            else st
          (bolNotifyOrder stPos o.side status price comm).1
      | none => st
  | .trdNotify e => { st with hist := notifyTradeHist st.hist e }

/-- Well-formedness of an event against the current Band-engine state. -/
def bolEventOk (st : BolState) (ev : BolEvent) : Bool :=
  match ev with
  | .bar _ => true
  | .ordNotify status _ _ size =>
      match st.order with
      | none => false
      | some o =>
          status ≠ OrdStatus.Completed ∨
            ((o.side = Side.buy → size > 0) ∧
              (o.side = Side.sell → size = -st.position))
  | .trdNotify _ => true

/-- Reachability of a Band-engine state from strategy start through
well-formed events. -/
inductive BolReachable (p : BolParams) : BolState → Prop where
  | init : BolReachable p bolInit
  | step {st : BolState} {ev : BolEvent} : BolReachable p st →
      bolEventOk st ev = true → BolReachable p (bolStep p st ev)

/-- One external event delivered to an RSI-variant engine. -/
inductive RsiEvent where
  | bar (b : RsiBar)
  | ordNotify (status : OrdStatus) (execPrice execComm execSize : ℚ)
  | trdNotify (e : TradeEv)
deriving DecidableEq, Repr

/-- The composed RSI-variant transition. -/
def rsiStep (p : RsiParams) (st : RsiState) (ev : RsiEvent) : RsiState :=
  match ev with
  | .bar b => (rsiNext p st b).1
  | .ordNotify status price comm size =>
      match st.order with
      | some o =>
          let stPos :=
            if status = .Completed then
              { st with position := st.position + size }
            else st
          (rsiNotifyOrder stPos o.side status price comm).1
      | none => st
  | .trdNotify e => { st with hist := notifyTradeHist st.hist e }

/-- Well-formedness of an event against the current RSI-engine state. -/
def rsiEventOk (st : RsiState) (ev : RsiEvent) : Bool :=
  match ev with
  | .bar _ => true
  | .ordNotify status _ _ size =>
      match st.order with
      | none => false
      | some o =>
          status ≠ OrdStatus.Completed ∨
            ((o.side = Side.buy → size > 0) ∧
              (o.side = Side.sell → size = -st.position))
  | .trdNotify _ => true

/-- Run an RSI engine over a whole event list from strategy start. -/
def rsiRun (p : RsiParams) (evs : List RsiEvent) : RsiState :=
  evs.foldl (rsiStep p) rsiInit

/-- Every event of the list is well-formed at the state it meets. -/
def rsiTraceOk (p : RsiParams) : RsiState → List RsiEvent → Bool
  | _, [] => true
  | st, ev :: rest => rsiEventOk st ev && rsiTraceOk p (rsiStep p st ev) rest

/-! ## Random-variant process runs

`Rand_Strat` instances running in one Python process share the
module-level `random` generator. A solo run holds one instance and the
global generator; a pair run holds two instances constructed in
sequence (each `__init__` reseeding the shared generator) and, on every
bar, evaluates instance A then instance B — the order `backtrader`
drives co-resident strategies. -/

/-- The per-bar decision visible to an observer: the side of the emitted
order intent, if any. -/
def intentSide (o : Option OrderIntent) : Option Side :=
  o.map OrderIntent.side

/-- An event delivered to a solo Random-variant process: a bar, or an
order notification (with the executed size for fills). -/
inductive RandEvent where
  | bar (b : RandBar)
  | ordNotify (status : OrdStatus) (execSize : ℚ)
deriving DecidableEq, Repr

/-- Solo-process accumulator: instance state, global generator state,
decisions recorded so far (one per bar). -/
structure RandSoloSt where
  inst : RandState
  g : RngState
  dec : List (Option Side)
deriving DecidableEq, Repr

/-- One solo-process step: bars run `next` against the shared generator;
order notifications run the broker position update then `notify_order`
(notifications addressed to no pending order are dropped). -/
def randSoloStep (stream : ℕ → ℕ → ℚ) (p : RandParams) (s : RandSoloSt)
    (ev : RandEvent) : RandSoloSt :=
  match ev with
  | .bar b =>
      let r := randNext stream p s.inst s.g b
      ⟨r.1, r.2.1, s.dec ++ [intentSide r.2.2]⟩
  | .ordNotify status size =>
      match s.inst.order with
      | some o =>
          let stPos :=
            if status = .Completed then
              { s.inst with position := s.inst.position + size }
            else s.inst
          { s with inst := (randNotifyOrder stPos o.side status).1 }
      | none => s

/-- A whole solo run: construct the instance (reseeding the global
generator when a seed is configured, starting from the arbitrary
pre-existing generator state `g0`), then process the events. Returns the
recorded decision sequence. -/
def randSoloRun (stream : ℕ → ℕ → ℚ) (p : RandParams) (g0 : RngState)
    (evs : List RandEvent) : List (Option Side) :=
  let ig := randInit p g0
  (evs.foldl (randSoloStep stream p) ⟨ig.1, ig.2, []⟩).dec

/-- An event delivered to a two-instance process: a bar (evaluated by
both instances, A first), or an order notification addressed to one of
them. -/
inductive RandPairEvent where
  | bar (b : RandBar)
  | notifyA (status : OrdStatus) (execSize : ℚ)
  | notifyB (status : OrdStatus) (execSize : ℚ)
deriving DecidableEq, Repr

/-- Pair-process accumulator: both instance states, the one shared
global generator, and each instance's recorded decisions. -/
structure RandPairSt where
  stA : RandState
  stB : RandState
  g : RngState
  decA : List (Option Side)
  decB : List (Option Side)
deriving DecidableEq, Repr

/-- One pair-process step. On a bar, instance A draws from the shared
generator first, then instance B continues from the advanced state. -/
def randPairStep (stream : ℕ → ℕ → ℚ) (pA pB : RandParams)
    (s : RandPairSt) (ev : RandPairEvent) : RandPairSt :=
  match ev with
  | .bar b =>
      let rA := randNext stream pA s.stA s.g b
      let rB := randNext stream pB s.stB rA.2.1 b
      ⟨rA.1, rB.1, rB.2.1,
        s.decA ++ [intentSide rA.2.2], s.decB ++ [intentSide rB.2.2]⟩
  | .notifyA status size =>
      match s.stA.order with
      | some o =>
          let stPos :=
            if status = .Completed then
              { s.stA with position := s.stA.position + size }
            else s.stA
          { s with stA := (randNotifyOrder stPos o.side status).1 }
      | none => s
  | .notifyB status size =>
      match s.stB.order with
      | some o =>
          let stPos :=
            if status = .Completed then
              { s.stB with position := s.stB.position + size }
            else s.stB
          { s with stB := (randNotifyOrder stPos o.side status).1 }
      | none => s

/-- A whole interleaved pair run: instance A's `__init__` runs first,
instance B's second (each reseeding the shared generator when its seed
is configured), then the events are processed. Returns both decision
sequences. -/
def randPairRun (stream : ℕ → ℕ → ℚ) (pA pB : RandParams) (g0 : RngState)
    (evs : List RandPairEvent) : List (Option Side) × List (Option Side) :=
  let ia := randInit pA g0
  let ib := randInit pB ia.2
  let fin := evs.foldl (randPairStep stream pA pB) ⟨ia.1, ib.1, ib.2, [], []⟩
  (fin.decA, fin.decB)

/-! ## Helper lemmas about the bounded history primitive -/

/-- Taking the last `n` of a list no longer than `n` is the identity. -/
theorem takeLast_of_length_le (n : ℕ) (xs : List ℚ) (h : xs.length ≤ n) :
    takeLast n xs = xs := by
  unfold takeLast
  rw [List.take_of_length_le (by simpa using h), List.reverse_reverse]

/-- The last-`n` slice as a drop from the front. -/
theorem takeLast_eq_drop (n : ℕ) (xs : List ℚ) :
    takeLast n xs = xs.drop (xs.length - n) := by
  unfold takeLast
  rw [List.take_reverse, List.reverse_reverse]

/-- Length of the last-`n` slice. -/
theorem length_takeLast (n : ℕ) (xs : List ℚ) :
    (takeLast n xs).length = min n xs.length := by
  simp [takeLast]

/-- Elements of the last-`n` slice come from the list. -/
theorem mem_takeLast {n : ℕ} {xs : List ℚ} {a : ℚ} (h : a ∈ takeLast n xs) :
    a ∈ xs := by
  unfold takeLast at h
  rw [List.mem_reverse] at h
  simpa using List.take_subset n xs.reverse h

/-- Appending one element and re-slicing absorbs an earlier slice: the
last `n+1` of `(last n+1 of xs) ++ [r]` is the last `n+1` of
`xs ++ [r]`. -/
theorem takeLast_append_one (n : ℕ) (xs : List ℚ) (r : ℚ) :
    takeLast (n + 1) (takeLast (n + 1) xs ++ [r]) =
      takeLast (n + 1) (xs ++ [r]) := by
  unfold takeLast
  rw [List.reverse_append, List.reverse_append, List.reverse_reverse]
  simp [List.take_succ_cons, List.take_take]

/-! ## Claim theorems -/

/-- Claim C5: for every win rate in `[0,1]`, positive average win,
negative average loss, non-negative leverage cap `L` and arbitrary Kelly
fraction, `kelly_criterion` returns a value in the closed interval
`[0, L]`. -/
theorem kelly_criterion_range (w aw al L f : ℚ) (hw0 : 0 ≤ w) (hw1 : w ≤ 1)
    (haw : 0 < aw) (hal : al < 0) (hL : 0 ≤ L) :
    0 ≤ kelly_criterion w aw al L f ∧ kelly_criterion w aw al L f ≤ L := by
  unfold kelly_criterion
  have h1 : ¬ (w < 0 ∨ w > 1) := by push_neg; exact ⟨hw0, hw1⟩
  have h2 : ¬ (al ≥ 0 ∨ aw ≤ 0) := by push_neg; exact ⟨hal, haw⟩
  rw [if_neg h1, if_neg h2]
  by_cases hw : w = 0
  · rw [if_pos hw]; exact ⟨le_refl 0, hL⟩
  · rw [if_neg hw]
    exact ⟨le_max_left 0 _, max_le hL (min_le_right _ _)⟩

/-- Witness for `kelly_criterion_range` at the spec's worked example
`kelly_criterion(0.6, 0.02, -0.01, 1.0, 0.25) = 0.10`. -/
theorem kelly_criterion_range_w :
    0 ≤ kelly_criterion (6/10) (2/100) (-(1/100)) 1 (1/4) ∧
      kelly_criterion (6/10) (2/100) (-(1/100)) 1 (1/4) ≤ 1 :=
  kelly_criterion_range (6/10) (2/100) (-(1/100)) 1 (1/4)
    (by norm_num) (by norm_num) (by norm_num) (by norm_num) (by norm_num)

/-- Claim C6 counterexample: with `win_rate = 1`, `avg_win = 0.02 > 0`,
`avg_loss = -0.015 < 0`, `max_leverage L = 1` and `fraction f = 2`, the
code clamps the result to `L = 1`, not `L * f = 2` — the claim's
"for every fraction" fails. -/
theorem kelly_certain_win_counter :
    (0:ℚ) < 2/100 ∧ (-(15/1000):ℚ) < 0 ∧ (0:ℚ) ≤ 1 ∧
    kelly_criterion 1 (2/100) (-(15/1000)) 1 2 = 1 ∧
    kelly_criterion 1 (2/100) (-(15/1000)) 1 2 ≠ 1 * 2 := by
  have heq : kelly_criterion 1 (2/100) (-(15/1000)) 1 2 = 1 := by
    unfold kelly_criterion
    norm_num
  refine ⟨by norm_num, by norm_num, by norm_num, heq, ?_⟩
  rw [heq]; norm_num

/-- Claim C6 (amended): for `win_rate = 1`, positive average win,
negative average loss, non-negative leverage cap and a fraction in
`[0, 1]` — the intended range of the safety fraction — the result is
exactly `max_leverage * fraction`; outside `[0,1]` the final clamp to
`[0, max_leverage]` caps it. -/
theorem kelly_certain_win (aw al L f : ℚ) (haw : 0 < aw) (hal : al < 0)
    (hL : 0 ≤ L) (hf0 : 0 ≤ f) (hf1 : f ≤ 1) :
    kelly_criterion 1 aw al L f = L * f := by
  unfold kelly_criterion
  have h1 : ¬ ((1:ℚ) < 0 ∨ (1:ℚ) > 1) := by norm_num
  have h2 : ¬ (al ≥ 0 ∨ aw ≤ 0) := by push_neg; exact ⟨hal, haw⟩
  rw [if_neg h1, if_neg h2, if_neg (one_ne_zero (α := ℚ)), if_pos rfl]
  show max 0 (min (L * f) L) = L * f
  rw [min_eq_left (mul_le_of_le_one_right hL hf1),
    max_eq_right (mul_nonneg hL hf0)]

/-- Witness for `kelly_certain_win`:
`kelly_criterion(1, 0.02, -0.015, 1, 0.25) = 0.25`. -/
theorem kelly_certain_win_w :
    kelly_criterion 1 (2/100) (-(15/1000)) 1 (1/4) = 1 * (1/4) :=
  kelly_certain_win (2/100) (-(15/1000)) 1 (1/4)
    (by norm_num) (by norm_num) (by norm_num) (by norm_num) (by norm_num)

/-- Claim C4: for each engine variant, while an order is pending the
per-bar evaluation is a no-op — the state is returned unchanged and no
order intent is emitted, so a second order can never be submitted before
the first resolves. -/
theorem pending_bar_no_submit (pr : RsiParams) (pb : BolParams)
    (pn : RandParams) (sr : RsiState) (sb : BolState) (sn : RandState)
    (stream : ℕ → ℕ → ℚ) (g : RngState)
    (br : RsiBar) (bb : BolBar) (bn : RandBar)
    (hr : sr.order.isSome = true) (hb : sb.order.isSome = true)
    (hn : sn.order.isSome = true) :
    rsiNext pr sr br = (sr, none) ∧
    bolNext pb sb bb = (sb, none, none) ∧
    randNext stream pn sn g bn = (sn, g, none) := by
  refine ⟨?_, ?_, ?_⟩
  · simp [rsiNext, hr]
  · simp [bolNext, hb]
  · simp [randNext, hn]

/-- Witness for `pending_bar_no_submit` with a pending buy in each
variant. -/
theorem pending_bar_no_submit_w :
    rsiNext ⟨20, 80, Method.fixed, 2/100, 1/4⟩
        ⟨some ⟨Side.buy, 2⟩, none, none, ⟨[], []⟩, 0⟩ ⟨15, 10, 1000, 1000⟩ =
      (⟨some ⟨Side.buy, 2⟩, none, none, ⟨[], []⟩, 0⟩, none) ∧
    bolNext ⟨Method.fixed, 2/100, 1/4, true, none, none⟩
        ⟨some ⟨Side.buy, 2⟩, none, none, ⟨[], []⟩, 0⟩
        ⟨5, 20, 15, 10, 1000, 1000⟩ =
      (⟨some ⟨Side.buy, 2⟩, none, none, ⟨[], []⟩, 0⟩, none, none) ∧
    randNext (fun _ _ => 0) ⟨1/100, 2/100, 10, some 42⟩
        ⟨some ⟨Side.buy, 2⟩, 0, 0⟩ ⟨7, 0⟩ ⟨10, 1000⟩ =
      (⟨some ⟨Side.buy, 2⟩, 0, 0⟩, ⟨7, 0⟩, none) :=
  pending_bar_no_submit _ _ _ _ _ _ _ _ _ _ _ rfl rfl rfl

/-- Claim C8: for each engine variant, a Canceled, Margin or Rejected
notification arriving while an order is pending clears the pending-order
flag and leaves every other state component (position, entry/buy price
and commission, holding-bar counter, wins/losses history) unchanged, and
the handler submits no order. -/
theorem reject_notification_atomic (sr : RsiState) (sb : BolState)
    (sn : RandState) (side : Side) (status : OrdStatus) (price comm : ℚ)
    (hpr : sr.order.isSome = true) (hpb : sb.order.isSome = true)
    (hpn : sn.order.isSome = true)
    (h : status = OrdStatus.Canceled ∨ status = OrdStatus.Margin ∨
      status = OrdStatus.Rejected) :
    rsiNotifyOrder sr side status price comm = ({ sr with order := none }, none) ∧
    bolNotifyOrder sb side status price comm = ({ sb with order := none }, none) ∧
    randNotifyOrder sn side status = ({ sn with order := none }, none) := by
  rcases h with h | h | h <;> subst h <;>
    exact ⟨by simp [rsiNotifyOrder], by simp [bolNotifyOrder],
      by simp [randNotifyOrder]⟩

/-- Witness for `reject_notification_atomic`: a rejected buy in each
variant, every field but the pending flag surviving. -/
theorem reject_notification_atomic_w :
    rsiNotifyOrder ⟨some ⟨Side.buy, 2⟩, some 10, some 1, ⟨[3], [-2]⟩, 5⟩
        Side.buy OrdStatus.Rejected 11 1 =
      (⟨none, some 10, some 1, ⟨[3], [-2]⟩, 5⟩, none) ∧
    bolNotifyOrder ⟨some ⟨Side.buy, 2⟩, some 10, some 1, ⟨[3], [-2]⟩, 5⟩
        Side.buy OrdStatus.Rejected 11 1 =
      (⟨none, some 10, some 1, ⟨[3], [-2]⟩, 5⟩, none) ∧
    randNotifyOrder ⟨some ⟨Side.buy, 2⟩, 4, 5⟩ Side.buy OrdStatus.Rejected =
      (⟨none, 4, 5⟩, none) :=
  reject_notification_atomic _ _ _ _ _ 11 1 rfl rfl rfl (Or.inr (Or.inr rfl))

/-- Claim C9: `AdaptivePositionSizer._getsizing` returns the strategy's
exact current position size for a sell request, and for a buy request
the capital fraction it sizes with — Kelly-derived or the fixed default,
including a Kelly result of 0 — lies in `[min_position, max_position]`
after the clamp (the bounds being a non-degenerate interval). -/
theorem adaptive_sizing_bounds (p : AdaptiveParams) (h : TradeHist)
    (pvalue close stratPos : ℚ) (hmm : p.min_position ≤ p.max_position) :
    adaptiveGetSizing p h pvalue close stratPos false = stratPos ∧
    p.min_position ≤ adaptiveFraction p h ∧
    adaptiveFraction p h ≤ p.max_position := by
  refine ⟨rfl, ?_, ?_⟩ <;> simp only [adaptiveFraction]
  · exact le_max_left _ _
  · exact max_le hmm (min_le_right _ _)

/-- Witness for `adaptive_sizing_bounds` at the default parameters
(`min_position = 0.05`, `max_position = 0.3`) and an empty history. -/
theorem adaptive_sizing_bounds_w :
    adaptiveGetSizing ⟨Method.kelly, 1/4, 1/10, 20, 3/10, 5/100⟩ ⟨[], []⟩
        10000 10 7 false = 7 ∧
    (5/100 : ℚ) ≤ adaptiveFraction ⟨Method.kelly, 1/4, 1/10, 20, 3/10, 5/100⟩ ⟨[], []⟩ ∧
    adaptiveFraction ⟨Method.kelly, 1/4, 1/10, 20, 3/10, 5/100⟩ ⟨[], []⟩ ≤ 3/10 :=
  adaptive_sizing_bounds ⟨Method.kelly, 1/4, 1/10, 20, 3/10, 5/100⟩ ⟨[], []⟩
    10000 10 7 (by norm_num)

/-- An in-position Band engine with stop-loss 10% and take-profit 2%
configured, entry at 100, no pending order. -/
def c1St : BolState := ⟨none, some 100, some 0, ⟨[], []⟩, 1⟩

/-- Band parameters with both stop-loss and take-profit configured and
the middle-band exit off. -/
def c1P : BolParams := ⟨Method.fixed, 2/100, 1/4, false, some 10, some 2⟩

/-- A bar at price 103: beyond the 102 take-profit target, inside the
bands, above the 90 stop price. -/
def c1Bar : BolBar := ⟨103, 200, 200, 50, 1000, 1000⟩

/-- Claim C1 counterexample: all the claim's premises hold — in
position, no pending order, take-profit configured and entry set, price
above the take-profit target, no band exit, no middle-band exit, the
stop-loss price condition false — yet `next` emits nothing: the
`elif` chain of `Bol_Strat.next` is consumed by the stop-loss branch
(configuration truthy, entry truthy) before its nested price test fails,
so the take-profit branch is never evaluated. -/
theorem bol_take_profit_counter :
    c1St.order = none ∧ c1St.position ≠ 0 ∧
    c1P.take_profit_pct = some 2 ∧ c1St.entry_price = some 100 ∧
    c1Bar.price > 100 * (1 + 2 / 100) ∧
    ¬ c1Bar.price > c1Bar.top ∧
    ¬ (c1P.exit_on_middle = true ∧ c1Bar.price > c1Bar.mid) ∧
    ¬ c1Bar.price < 100 * (1 - 10 / 100) ∧
    bolNext c1P c1St c1Bar = (c1St, none, none) := by
  refine ⟨rfl, by norm_num [c1St], rfl, rfl, by norm_num [c1Bar], ?_, ?_, ?_, ?_⟩
  · norm_num [c1Bar]
  · simp [c1P]
  · norm_num [c1Bar]
  · have hr : bolExitReason c1P c1St c1Bar = none := by
      unfold bolExitReason c1P c1St c1Bar
      norm_num [optTruthy]
    simp only [c1St] at hr
    simp [bolNext, c1St, hr]

/-- Claim C1 (amended): the Band variant emits the take-profit exit
exactly as claimed PROVIDED stop-loss is not configured (falsy). When a
stop-loss percentage is configured and the entry price is set, the
stop-loss `elif` consumes the evaluation even though its price test
fails, and no take-profit exit (indeed no exit at all) is emitted on
that bar. -/
theorem bol_take_profit_exit (p : BolParams) (st : BolState) (b : BolBar)
    (ep tp : ℚ) (hord : st.order = none) (hpos : st.position ≠ 0)
    (htp : p.take_profit_pct = some tp) (htp0 : tp ≠ 0)
    (hep : st.entry_price = some ep) (hep0 : ep ≠ 0)
    (hsl : optTruthy p.stop_loss_pct = false)
    (hband : ¬ b.price > b.top)
    (hmid : ¬ (p.exit_on_middle = true ∧ b.price > b.mid))
    (hprofit : b.price > ep * (1 + tp / 100)) :
    bolNext p st b =
      ({ st with order := some ⟨Side.sell, st.position⟩ },
        some ⟨Side.sell, st.position⟩, some ExitReason.takeProfit) := by
  have hcond3 : ¬ (optTruthy p.stop_loss_pct = true ∧
      optTruthy st.entry_price = true) := by
    rw [hsl]; simp
  have hcond4 : optTruthy p.take_profit_pct = true ∧
      optTruthy st.entry_price = true := by
    rw [htp, hep]; exact ⟨by simp [optTruthy, htp0], by simp [optTruthy, hep0]⟩
  have hreason : bolExitReason p st b = some ExitReason.takeProfit := by
    unfold bolExitReason
    rw [if_neg hband, if_neg hmid, if_neg hcond3, if_pos hcond4, htp, hep]
    show (if b.price > ep * (1 + tp / 100) then some ExitReason.takeProfit
      else none) = some ExitReason.takeProfit
    exact if_pos hprofit
  simp [bolNext, hord, hpos, hreason]

/-- Witness for `bol_take_profit_exit`: entry 100, take-profit 2%, no
stop-loss, price 103 inside the bands. -/
theorem bol_take_profit_exit_w :
    bolNext ⟨Method.fixed, 2/100, 1/4, false, none, some 2⟩
        ⟨none, some 100, none, ⟨[], []⟩, 1⟩ ⟨103, 200, 200, 50, 1000, 1000⟩ =
      (⟨some ⟨Side.sell, 1⟩, some 100, none, ⟨[], []⟩, 1⟩,
        some ⟨Side.sell, 1⟩, some ExitReason.takeProfit) :=
  bol_take_profit_exit _ _ _ 100 2 rfl (by norm_num) rfl (by norm_num) rfl
    (by norm_num) rfl (by norm_num) (by simp) (by norm_num)

/-- A concrete pseudo-random output stream: the first draw after a seed
is 0, every later draw 1/2. -/
def stream0 : ℕ → ℕ → ℚ :=
  fun _ n => if n = 0 then 0 else 1/2

/-- Random-variant parameters: trade probability 1/4, seed 7. -/
def c3P : RandParams := ⟨1/4, 2/100, 10, some 7⟩

/-- A single bar fed to both interleaved instances. -/
def c3Evs : List RandPairEvent := [RandPairEvent.bar ⟨10, 1000⟩]

/-- Claim C3 counterexample: two `Rand_Strat` instances constructed with
the same seed 7 in one process share the module-level generator, so on
the very first bar instance A consumes draw 0 (a buy) and instance B
sees draw 1 (no trade): their decision sequences differ. The claimed
engine-owned-generator behavior — identical decisions even when
interleaved — fails. -/
theorem rand_interleaved_counter :
    (randPairRun stream0 c3P c3P ⟨0, 0⟩ c3Evs).1 = [some Side.buy] ∧
    (randPairRun stream0 c3P c3P ⟨0, 0⟩ c3Evs).2 = [none] ∧
    (randPairRun stream0 c3P c3P ⟨0, 0⟩ c3Evs).1 ≠
      (randPairRun stream0 c3P c3P ⟨0, 0⟩ c3Evs).2 := by
  have h : randPairRun stream0 c3P c3P ⟨0, 0⟩ c3Evs =
      ([some Side.buy], [none]) := by
    norm_num [randPairRun, c3Evs, c3P, randInit, rngSeed, randPairStep,
      randNext, rngDraw, stream0, intentSide]
  refine ⟨?_, ?_, ?_⟩ <;> rw [h] <;> simp

/-- Claim C3 (amended): seeded reproducibility holds per PROCESS, not
per instance — a solo `Rand_Strat` run with a configured seed produces
decisions depending only on the stream, parameters and events, never on
the pre-existing global generator state (because `__init__` reseeds the
process-global generator). Two same-seed instances interleaved in one
process share that generator and may diverge (see the
counterexample). -/
theorem rand_seeded_solo_reproducible (stream : ℕ → ℕ → ℚ)
    (p : RandParams) (s : ℕ) (g1 g2 : RngState) (evs : List RandEvent)
    (hs : p.seed = some s) :
    randSoloRun stream p g1 evs = randSoloRun stream p g2 evs := by
  simp [randSoloRun, randInit, hs]

/-- Witness for `rand_seeded_solo_reproducible`: one bar, two very
different prior generator states, identical decisions. -/
theorem rand_seeded_solo_reproducible_w :
    randSoloRun stream0 c3P ⟨0, 0⟩ [RandEvent.bar ⟨10, 1000⟩] =
      randSoloRun stream0 c3P ⟨99, 5⟩ [RandEvent.bar ⟨10, 1000⟩] :=
  rand_seeded_solo_reproducible stream0 c3P 7 ⟨0, 0⟩ ⟨99, 5⟩
    [RandEvent.bar ⟨10, 1000⟩] rfl

/-- Re-slicing after one append absorbs an earlier slice at the 100
cap. -/
theorem takeLast100_append (W : List ℚ) (r : ℚ) :
    takeLast 100 (takeLast 100 W ++ [r]) = takeLast 100 (W ++ [r]) := by
  have h := takeLast_append_one 99 W r
  norm_num at h
  exact h

/-- One trade notification keeps both history sides within the 100
cap. -/
theorem notifyTradeHist_len (h : TradeHist) (e : TradeEv)
    (hw : h.wins.length ≤ 100) (hl : h.losses.length ≤ 100) :
    (notifyTradeHist h e).wins.length ≤ 100 ∧
      (notifyTradeHist h e).losses.length ≤ 100 := by
  simp only [notifyTradeHist]
  split_ifs <;>
    simp_all [length_takeLast, List.length_append] <;> omega

/-- Folding any notification sequence from a within-cap history stays
within the cap. -/
theorem foldTradeHist_bounded (evs : List TradeEv) (h : TradeHist)
    (hw : h.wins.length ≤ 100) (hl : h.losses.length ≤ 100) :
    (evs.foldl notifyTradeHist h).wins.length ≤ 100 ∧
      (evs.foldl notifyTradeHist h).losses.length ≤ 100 := by
  induction evs generalizing h with
  | nil => exact ⟨hw, hl⟩
  | cons e rest ih =>
      have hstep := notifyTradeHist_len h e hw hl
      exact ih (notifyTradeHist h e) hstep.1 hstep.2

/-- One winning closed trade appended to a sliced wins list re-slices
the extended underlying list. -/
theorem notifyTradeHist_win_step (W : List ℚ) (e : TradeEv)
    (hc : e.isclosed = true) (hp : 0 < e.pnlcomm) :
    notifyTradeHist ⟨takeLast 100 W, []⟩ e =
      ⟨takeLast 100 (W ++ [evRet e]), []⟩ := by
  simp only [notifyTradeHist, hc, hp]
  split_ifs with h1 h2 h3 h4
  · dsimp only at h3
    simp at h3
  · dsimp only
    rw [takeLast100_append]
  · dsimp only at h4
    simp at h4
  · dsimp only at h2 ⊢
    simp only [List.length_append, List.length_singleton, length_takeLast] at h2
    have hW : W.length ≤ 99 := by omega
    rw [takeLast_of_length_le 100 W (by omega),
      takeLast_of_length_le 100 (W ++ [evRet e]) (by simp; omega)]
  · exact absurd trivial h1

/-- A sequence made only of winning closed trades builds exactly the
last-100 slice of its returns, with an empty losses side. -/
theorem runTradeHist_wins_only (evs : List TradeEv)
    (h : ∀ e ∈ evs, e.isclosed = true ∧ 0 < e.pnlcomm) :
    runTradeHist evs = ⟨takeLast 100 (evs.map evRet), []⟩ := by
  induction evs using List.reverseRecOn with
  | nil => rfl
  | append_singleton evs e ih =>
      have hall : ∀ x ∈ evs, x.isclosed = true ∧ 0 < x.pnlcomm :=
        fun x hx => h x (List.mem_append_left _ hx)
      have he := h e (by simp)
      have ihe := ih hall
      unfold runTradeHist at ihe ⊢
      rw [List.foldl_append, ihe, List.foldl_cons, List.foldl_nil,
        notifyTradeHist_win_step (evs.map evRet) e he.1 he.2]
      simp

/-- Claim C7: after any sequence of trade-closed notifications both
history sides hold at most 100 entries, and after 105 winning closed
trades the wins list is exactly the last 100 returns in arrival order —
the 5 oldest evicted, FIFO, not a reset. -/
theorem hist_capped_fifo :
    (∀ evs : List TradeEv,
      (runTradeHist evs).wins.length ≤ 100 ∧
        (runTradeHist evs).losses.length ≤ 100) ∧
    (∀ evs : List TradeEv, evs.length = 105 →
      (∀ e ∈ evs, e.isclosed = true ∧ 0 < e.pnlcomm) →
      (runTradeHist evs).wins = (evs.map evRet).drop 5 ∧
        (runTradeHist evs).wins.length = 100 ∧
        (runTradeHist evs).losses = []) := by
  constructor
  · intro evs
    exact foldTradeHist_bounded evs ⟨[], []⟩ (by simp) (by simp)
  · intro evs hlen hall
    rw [runTradeHist_wins_only evs hall]
    have hdrop : takeLast 100 (evs.map evRet) = (evs.map evRet).drop 5 := by
      rw [takeLast_eq_drop]
      simp [hlen]
    refine ⟨hdrop, ?_, rfl⟩
    rw [hdrop]
    simp [hlen]

/-- Witness for `hist_capped_fifo`: 105 identical winning trades
(pnl 1 on open value 1). -/
theorem hist_capped_fifo_w :
    ((runTradeHist (List.replicate 105 ⟨true, 1, 1⟩)).wins.length ≤ 100 ∧
      (runTradeHist (List.replicate 105 ⟨true, 1, 1⟩)).losses.length ≤ 100) ∧
    ((runTradeHist (List.replicate 105 ⟨true, 1, 1⟩)).wins =
        ((List.replicate 105 (⟨true, 1, 1⟩ : TradeEv)).map evRet).drop 5 ∧
      (runTradeHist (List.replicate 105 ⟨true, 1, 1⟩)).wins.length = 100 ∧
      (runTradeHist (List.replicate 105 ⟨true, 1, 1⟩)).losses = []) :=
  ⟨hist_capped_fifo.1 _,
    hist_capped_fifo.2 _ (by simp)
      (fun e he => by rw [List.eq_of_mem_replicate he]; exact ⟨rfl, by norm_num⟩)⟩

/-- A winning trade's recorded return is non-negative. -/
theorem evRet_nonneg (e : TradeEv) (hp : 0 < e.pnlcomm) : 0 ≤ evRet e := by
  unfold evRet
  split
  · exact div_nonneg hp.le (abs_nonneg _)
  · exact le_refl 0

/-- A non-winning trade's recorded return is non-positive. -/
theorem evRet_nonpos (e : TradeEv) (hp : e.pnlcomm ≤ 0) : evRet e ≤ 0 := by
  unfold evRet
  split
  · exact div_nonpos_of_nonpos_of_nonneg hp (abs_nonneg _)
  · exact le_refl 0

/-- Every element of the post-notification wins list is an old win or
the newly recorded return of a winning trade. -/
theorem notifyTradeHist_wins_cases (h : TradeHist) (e : TradeEv) {x : ℚ}
    (hx : x ∈ (notifyTradeHist h e).wins) :
    x ∈ h.wins ∨ (0 < e.pnlcomm ∧ x = evRet e) := by
  simp only [notifyTradeHist] at hx
  split_ifs at hx <;> (try dsimp only at hx)
  all_goals
    first
    | exact Or.inl hx
    | exact Or.inl (mem_takeLast hx)
    | (rcases List.mem_append.mp hx with h' | h'
       · exact Or.inl h'
       · exact Or.inr ⟨by assumption, List.mem_singleton.mp h'⟩)
    | (rcases List.mem_append.mp (mem_takeLast hx) with h' | h'
       · exact Or.inl h'
       · exact Or.inr ⟨by assumption, List.mem_singleton.mp h'⟩)

/-- Every element of the post-notification losses list is an old loss or
the newly recorded return of a non-winning trade. -/
theorem notifyTradeHist_losses_cases (h : TradeHist) (e : TradeEv) {x : ℚ}
    (hx : x ∈ (notifyTradeHist h e).losses) :
    x ∈ h.losses ∨ (¬ 0 < e.pnlcomm ∧ x = evRet e) := by
  simp only [notifyTradeHist] at hx
  split_ifs at hx <;> (try dsimp only at hx)
  all_goals
    first
    | exact Or.inl hx
    | exact Or.inl (mem_takeLast hx)
    | (rcases List.mem_append.mp hx with h' | h'
       · exact Or.inl h'
       · exact Or.inr ⟨by assumption, List.mem_singleton.mp h'⟩)
    | (rcases List.mem_append.mp (mem_takeLast hx) with h' | h'
       · exact Or.inl h'
       · exact Or.inr ⟨by assumption, List.mem_singleton.mp h'⟩)

/-- One notification preserves the sign discipline of both sides. -/
theorem notifyTradeHist_signs (h : TradeHist) (e : TradeEv)
    (hw : ∀ x ∈ h.wins, 0 ≤ x) (hl : ∀ x ∈ h.losses, x ≤ 0) :
    (∀ x ∈ (notifyTradeHist h e).wins, 0 ≤ x) ∧
      (∀ x ∈ (notifyTradeHist h e).losses, x ≤ 0) := by
  constructor
  · intro x hx
    rcases notifyTradeHist_wins_cases h e hx with h' | ⟨hp, rfl⟩
    · exact hw x h'
    · exact evRet_nonneg e hp
  · intro x hx
    rcases notifyTradeHist_losses_cases h e hx with h' | ⟨hp, rfl⟩
    · exact hl x h'
    · exact evRet_nonpos e (not_lt.mp hp)

/-- A zero-pnl-after-commission trade records a zero return. -/
theorem evRet_of_pnlcomm_eq_zero (e : TradeEv) (hp : e.pnlcomm = 0) :
    evRet e = 0 := by
  unfold evRet
  split
  · rw [hp, zero_div]
  · rfl

/-- A zero-open-value trade records a zero return. -/
theorem evRet_of_value_eq_zero (e : TradeEv) (hv : e.value = 0) :
    evRet e = 0 := by
  unfold evRet
  rw [if_neg (by simp [hv])]

/-- Claim C10: the sign discipline of the trade-outcome history — every
recorded win is `≥ 0` and every recorded loss `≤ 0` after any
notification sequence; a closed trade with positive pnl-after-commission
but zero open value appends the value 0 to wins; a closed trade with
pnl-after-commission exactly 0 is appended (as 0) to losses. -/
theorem hist_sign_invariant :
    (∀ evs : List TradeEv,
      (∀ x ∈ (runTradeHist evs).wins, 0 ≤ x) ∧
        (∀ x ∈ (runTradeHist evs).losses, x ≤ 0)) ∧
    (∀ h : TradeHist, ∀ e : TradeEv, e.isclosed = true → 0 < e.pnlcomm →
      e.value = 0 → h.wins.length ≤ 99 → h.losses.length ≤ 100 →
      notifyTradeHist h e = { h with wins := h.wins ++ [0] }) ∧
    (∀ h : TradeHist, ∀ e : TradeEv, e.isclosed = true → e.pnlcomm = 0 →
      h.wins.length ≤ 100 → h.losses.length ≤ 99 →
      notifyTradeHist h e = { h with losses := h.losses ++ [0] }) := by
  refine ⟨?_, ?_, ?_⟩
  · intro evs
    suffices hgen : ∀ h : TradeHist, (∀ x ∈ h.wins, (0:ℚ) ≤ x) →
        (∀ x ∈ h.losses, x ≤ (0:ℚ)) →
        (∀ x ∈ (evs.foldl notifyTradeHist h).wins, 0 ≤ x) ∧
          (∀ x ∈ (evs.foldl notifyTradeHist h).losses, x ≤ 0) by
      exact hgen ⟨[], []⟩ (by simp) (by simp)
    induction evs with
    | nil => intro h hw hl; exact ⟨hw, hl⟩
    | cons e rest ih =>
        intro h hw hl
        have hstep := notifyTradeHist_signs h e hw hl
        exact ih (notifyTradeHist h e) hstep.1 hstep.2
  · intro h e hc hp hv hw hl
    have h0 : evRet e = 0 := evRet_of_value_eq_zero e hv
    simp only [notifyTradeHist, hc, hp, h0]
    split_ifs <;> simp_all [List.length_append] <;> omega
  · intro h e hc hp hw hl
    have h0 : evRet e = 0 := evRet_of_pnlcomm_eq_zero e hp
    have hnp : ¬ e.pnlcomm > 0 := by rw [hp]; exact lt_irrefl 0
    simp only [notifyTradeHist, hc, hnp, h0]
    split_ifs <;> simp_all [List.length_append] <;> omega

/-- Witness for `hist_sign_invariant`: part one at a two-event sequence,
parts two and three at an empty history with concrete trades. -/
theorem hist_sign_invariant_w :
    ((∀ x ∈ (runTradeHist [⟨true, 3, 2⟩, ⟨true, -1, 2⟩]).wins, (0:ℚ) ≤ x) ∧
      (∀ x ∈ (runTradeHist [⟨true, 3, 2⟩, ⟨true, -1, 2⟩]).losses, x ≤ (0:ℚ))) ∧
    notifyTradeHist ⟨[], []⟩ ⟨true, 5, 0⟩ = ⟨[0], []⟩ ∧
    notifyTradeHist ⟨[], []⟩ ⟨true, 0, 7⟩ = ⟨[], [0]⟩ :=
  ⟨hist_sign_invariant.1 _,
    hist_sign_invariant.2.1 ⟨[], []⟩ ⟨true, 5, 0⟩ rfl (by norm_num) rfl
      (by simp) (by simp),
    hist_sign_invariant.2.2 ⟨[], []⟩ ⟨true, 0, 7⟩ rfl rfl (by simp) (by simp)⟩

/-- The Band-variant inductive invariant: entry price set iff in a
position, and a pending buy order only while flat. -/
def BolInv (st : BolState) : Prop :=
  (st.entry_price ≠ none ↔ st.position ≠ 0) ∧
    (∀ o : OrderIntent, st.order = some o → o.side = Side.buy →
      st.position = 0)

/-- Every well-formed event preserves the Band-variant invariant. -/
theorem bolStep_inv (p : BolParams) (st : BolState) (ev : BolEvent)
    (hok : bolEventOk st ev = true) (ih : BolInv st) :
    BolInv (bolStep p st ev) := by
  obtain ⟨ih1, ih2⟩ := ih
  cases ev with
  | bar b =>
      show BolInv (bolNext p st b).1
      unfold bolNext
      by_cases ho : st.order.isSome = true
      · rw [if_pos ho]
        exact ⟨ih1, ih2⟩
      · rw [if_neg ho]
        by_cases hflat : ¬ st.position ≠ 0
        · rw [if_pos hflat]
          by_cases hbuy : b.price < b.bot
          · rw [if_pos hbuy]
            exact ⟨ih1, fun o _ _ => not_not.mp hflat⟩
          · rw [if_neg hbuy]
            exact ⟨ih1, ih2⟩
        · rw [if_neg hflat]
          cases hex : bolExitReason p st b with
          | some r =>
              refine ⟨ih1, ?_⟩
              intro o ho' hs
              have heq : (⟨Side.sell, st.position⟩ : OrderIntent) = o := by
                simpa using ho'
              rw [← heq] at hs
              simp at hs
          | none => exact ⟨ih1, ih2⟩
  | ordNotify status price comm size =>
      cases horder : st.order with
      | none =>
          simp [bolEventOk, horder] at hok
      | some o =>
          simp only [bolEventOk, horder] at hok
          rw [decide_eq_true_eq] at hok
          show BolInv (bolStep p st (.ordNotify status price comm size))
          unfold bolStep
          rw [horder]
          dsimp only
          cases status with
          | Submitted =>
              exact ⟨ih1, fun o' ho' => ih2 o' (by simpa [bolNotifyOrder] using ho')⟩
          | Accepted =>
              exact ⟨ih1, fun o' ho' => ih2 o' (by simpa [bolNotifyOrder] using ho')⟩
          | Completed =>
              rcases hok with hok | ⟨hbuy, hsell⟩
              · exact absurd rfl hok
              · cases hside : o.side with
                | buy =>
                    have hpos0 : st.position = 0 := ih2 o horder hside
                    have hsz : size > 0 := hbuy hside
                    refine ⟨?_, ?_⟩
                    · show some price ≠ none ↔ st.position + size ≠ 0
                      rw [hpos0, zero_add]
                      simp [ne_of_gt hsz]
                    · intro o' ho'
                      simp [bolNotifyOrder] at ho'
                | sell =>
                    have hsz : size = -st.position := hsell hside
                    refine ⟨?_, ?_⟩
                    · show (none : Option ℚ) ≠ none ↔ st.position + size ≠ 0
                      rw [hsz]
                      simp
                    · intro o' ho'
                      simp [bolNotifyOrder] at ho'
          | Canceled =>
              exact ⟨ih1, fun o' ho' => by simp [bolNotifyOrder] at ho'⟩
          | Margin =>
              exact ⟨ih1, fun o' ho' => by simp [bolNotifyOrder] at ho'⟩
          | Rejected =>
              exact ⟨ih1, fun o' ho' => by simp [bolNotifyOrder] at ho'⟩
  | trdNotify e => exact ⟨ih1, ih2⟩

/-- The invariant holds in every reachable Band-engine state. -/
theorem bolReachable_inv (p : BolParams) (st : BolState)
    (h : BolReachable p st) : BolInv st := by
  induction h with
  | init =>
      refine ⟨by simp [bolInit], ?_⟩
      intro o ho
      simp [bolInit] at ho
  | step hre hok ih => exact bolStep_inv _ _ _ hok ih

/-- Claim C2 (amended): the entry-price/position invariant holds for the
Band variant — in every reachable state `entry_price` is non-null iff
the position is non-zero, and in particular a completed flattening sell
nulls it. The RSI variant violates the claim: `RSI_Strat.notify_order`
keeps `buy_price` set after a completed sell (see the
counterexample). -/
theorem bol_entry_price_iff_position (p : BolParams) (st : BolState)
    (h : BolReachable p st) :
    st.entry_price ≠ none ↔ st.position ≠ 0 :=
  (bolReachable_inv p st h).1

/-- Witness for `bol_entry_price_iff_position` at the start state. -/
theorem bol_entry_price_iff_position_w :
    (bolInit.entry_price ≠ none ↔ bolInit.position ≠ 0) :=
  bol_entry_price_iff_position ⟨Method.fixed, 2/100, 1/4, true, none, none⟩
    bolInit BolReachable.init

/-- Default RSI parameters (oversold 20, overbought 80, fixed 2%
sizing). -/
def c2P : RsiParams := ⟨20, 80, Method.fixed, 2/100, 1/4⟩

/-- A full round trip for the RSI engine: an oversold bar triggering a
buy, a completed buy fill (price 10, size 2), an overbought bar
triggering the sell, and a completed sell fill flattening the
position. -/
def c2Evs : List RsiEvent :=
  [RsiEvent.bar ⟨15, 10, 1000, 1000⟩,
   RsiEvent.ordNotify OrdStatus.Completed 10 0 2,
   RsiEvent.bar ⟨85, 12, 980, 1004⟩,
   RsiEvent.ordNotify OrdStatus.Completed 12 0 (-2)]

/-- Claim C2 counterexample: after the well-formed round-trip trace
`c2Evs` the RSI engine is flat (position 0) yet `buy_price` is still
`some 10` — `RSI_Strat.notify_order` never nulls the stored buy price on
a completed sell, so "entry price is non-null iff position is non-zero"
fails on a reachable state. -/
theorem rsi_entry_price_counter :
    rsiTraceOk c2P rsiInit c2Evs = true ∧
    (rsiRun c2P c2Evs).position = 0 ∧
    (rsiRun c2P c2Evs).buy_price = some 10 ∧
    ¬ ((rsiRun c2P c2Evs).buy_price ≠ none ↔
        (rsiRun c2P c2Evs).position ≠ 0) := by
  have h1 : rsiStep c2P rsiInit (RsiEvent.bar ⟨15, 10, 1000, 1000⟩) =
      ⟨some ⟨Side.buy, 2⟩, none, none, ⟨[], []⟩, 0⟩ := by
    norm_num [rsiStep, rsiNext, rsiInit, rsiCalcSize, c2P]
  have h2 : rsiStep c2P ⟨some ⟨Side.buy, 2⟩, none, none, ⟨[], []⟩, 0⟩
        (RsiEvent.ordNotify OrdStatus.Completed 10 0 2) =
      ⟨none, some 10, some 0, ⟨[], []⟩, 2⟩ := by
    norm_num [rsiStep, rsiNotifyOrder]
    rw [if_neg (by decide)]
  have h3 : rsiStep c2P ⟨none, some 10, some 0, ⟨[], []⟩, 2⟩
        (RsiEvent.bar ⟨85, 12, 980, 1004⟩) =
      ⟨some ⟨Side.sell, 2⟩, some 10, some 0, ⟨[], []⟩, 2⟩ := by
    norm_num [rsiStep, rsiNext, c2P]
  have h4 : rsiStep c2P ⟨some ⟨Side.sell, 2⟩, some 10, some 0, ⟨[], []⟩, 2⟩
        (RsiEvent.ordNotify OrdStatus.Completed 12 0 (-2)) =
      ⟨none, some 10, some 0, ⟨[], []⟩, 0⟩ := by
    norm_num [rsiStep, rsiNotifyOrder]
    rw [if_neg (by decide)]
  have hrun : rsiRun c2P c2Evs =
      ⟨none, some 10, some 0, ⟨[], []⟩, 0⟩ := by
    simp only [rsiRun, c2Evs, List.foldl_cons, List.foldl_nil, h1, h2, h3, h4]
  have hok : rsiTraceOk c2P rsiInit c2Evs = true := by
    simp only [c2Evs, rsiTraceOk, h1, h2, h3, h4, Bool.and_eq_true]
    refine ⟨?_, ?_, ?_, ?_, trivial⟩ <;>
      norm_num [rsiEventOk, rsiInit] <;> decide
  refine ⟨hok, ?_, ?_, ?_⟩ <;> rw [hrun] <;> simp

end FinTrader
